import Mathlib

/-!
Verification of the delegation-tree engine (DelegationNode) of the KILT SDK.

The embedding models the `DelegationNode` class: construction (`newNode`,
`newRoot`, with the structural `errorCheck`), the hash derivation
(`generateHash`), the ancestry and subtree algorithms (`getParent`,
`findAncestorOwnedBy`, `getChildren`, `subtreeNodeCount`), the hierarchy
details cache (`getHierarchyDetails`) and the bounded cascade requests
(`store`, `revoke`, `remove`, `reclaimDeposit`).

The ledger collaborator (chain queries) is modelled as a `Ledger` record of
query functions; the submission collaborator is modelled by the `ChainCall`
value a cascade operation emits.  Recursion that in the source walks chain
state (parent chains, child subtrees) is given an explicit fuel parameter;
a result of `none` models divergence (never reached for enough fuel on
well-founded chain data).
-/

set_option autoImplicit false

namespace KiltDelegation

/-- Error taxonomy of the delegation engine, named after the spec taxonomy;
each constructor corresponds to one SDKErrors value thrown by the source
(`ERROR_UNAUTHORIZED`, `ERROR_DELEGATION_SIGNATURE_MISSING`,
`ERROR_HIERARCHY_QUERY`, `ERROR_DELEGATION_ID_MISSING`, and the structural
`InvalidNode` of construction). -/
inductive SDKError where
  | invalidNode
  | hierarchyQueryFailed (hierarchyId : String)
  | delegationIdMissing
  | unauthorized
  | signatureMissing
  deriving DecidableEq, Repr

/-- Hierarchy details record: `IDelegationHierarchyDetails`, the id of the
hierarchy root together with the claim-type hash bound to the hierarchy. -/
structure HierarchyDetails where
  id : String
  cTypeHash : String
  deriving DecidableEq, Repr

/-- The `IDelegationNode` interface: the plain record the `DelegationNode`
constructor receives (and the shape the ledger reports for a node). -/
structure IDelegationNode where
  id : String
  hierarchyId : String
  parentId : Option String
  childrenIds : List String
  account : String
  permissions : List Nat
  revoked : Bool
  deriving DecidableEq, Repr

/-- The `DelegationNode` entity: the interface fields plus the private
`hierarchyDetails` memo used by `getHierarchyDetails`. -/
structure DelegationNode where
  id : String
  hierarchyId : String
  parentId : Option String
  childrenIdentifiers : List String
  account : String
  permissions : List Nat
  hierarchyDetails : Option HierarchyDetails
  revoked : Bool
  deriving DecidableEq, Repr

/-- Modelled from the spec: `DelegationNodeUtils.errorCheck` (the
DelegationNode.utils module is not among the available sources).
Construction validates structural consistency: a node claiming to be root
(`id == hierarchyId`) must have no `parentId`, and vice versa a non-root
node must have a `parentId`; violation fails with `InvalidNode`. -/
def errorCheck (node : IDelegationNode) : Except SDKError Unit :=
  if node.id = node.hierarchyId then
    if node.parentId.isSome then Except.error SDKError.invalidNode
    else Except.ok ()
  else if node.parentId.isNone then Except.error SDKError.invalidNode
  else Except.ok ()

/-- The `DelegationNode` constructor: copies the interface fields onto the
instance (the `hierarchyDetails` memo starts unset) and then runs
`DelegationNodeUtils.errorCheck` on it. -/
def DelegationNode.ofInput (input : IDelegationNode) : Except SDKError DelegationNode :=
  let node : DelegationNode :=
    { id := input.id
      hierarchyId := input.hierarchyId
      parentId := input.parentId
      childrenIdentifiers := input.childrenIds
      account := input.account
      permissions := input.permissions
      hierarchyDetails := none
      revoked := input.revoked }
  match errorCheck input with
  | Except.error e => Except.error e
  | Except.ok _ => Except.ok node

/-- `DelegationNode.newNode`: builds a regular (non-root) node with a fresh
id (the UUID generated by the source is passed in as `freshId`), the given
hierarchy, parent, account and permissions, no children and not revoked. -/
def DelegationNode.newNode (freshId hierarchyId parentId account : String)
    (permissions : List Nat) : Except SDKError DelegationNode :=
  DelegationNode.ofInput
    { id := freshId
      hierarchyId := hierarchyId
      parentId := some parentId
      childrenIds := []
      account := account
      permissions := permissions
      revoked := false }

/-- `DelegationNode.newRoot`: builds a root node with a fresh id used both
as node id and hierarchy id, no parent, and eagerly attaches the
`HierarchyDetails` memo for the new hierarchy. -/
def DelegationNode.newRoot (freshId account : String) (permissions : List Nat)
    (cTypeHash : String) : Except SDKError DelegationNode :=
  match DelegationNode.ofInput
      { id := freshId
        hierarchyId := freshId
        parentId := none
        childrenIds := []
        account := account
        permissions := permissions
        revoked := false } with
  | Except.error e => Except.error e
  | Except.ok n =>
      Except.ok { n with hierarchyDetails := some { id := freshId, cTypeHash := cTypeHash } }

/-- `DelegationNode.isRoot`: the node id equals the hierarchy id and there
is no parent id. -/
def DelegationNode.isRoot (n : DelegationNode) : Bool :=
  n.id = n.hierarchyId && n.parentId.isNone

/-- The ledger-query collaborator: `query` from DelegationNode.chain
(`queryNode(id)` at the spec boundary) and `queryDetails` from
DelegationHierarchyDetails.chain (`queryHierarchyDetails`).  A ledger is an
arbitrary assignment of records to ids. -/
structure Ledger where
  nodes : String → Option DelegationNode
  hierarchies : String → Option HierarchyDetails

/-- `DelegationNode.getParent`: if the node has a `parentId`, query the
ledger for it, otherwise return nothing. -/
def DelegationNode.getParent (L : Ledger) (n : DelegationNode) : Option DelegationNode :=
  match n.parentId with
  | some pid => L.nodes pid
  | none => none

/-- Result record of `findAncestorOwnedBy`: the number of parent hops
traversed and the found node (or nothing). -/
structure FindResult where
  steps : Nat
  node : Option DelegationNode
  deriving DecidableEq, Repr

/-- `DelegationNode.findAncestorOwnedBy`: if the node account equals the
queried DID, return zero steps and the node itself; otherwise recurse into
the parent, adding one step to whatever result (found or not) comes back;
if there is no parent, return zero steps and no node.  `fuel` bounds the
recursion depth of the model; `none` models a walk that exceeds it. -/
def DelegationNode.findAncestorOwnedBy (L : Ledger) :
    Nat → DelegationNode → String → Option FindResult
  | 0, _, _ => none
  | fuel + 1, n, did =>
    if n.account = did then
      some { steps := 0, node := some n }
    else
      match DelegationNode.getParent L n with
      | some parent =>
          match DelegationNode.findAncestorOwnedBy L fuel parent did with
          | some result => some { result with steps := result.steps + 1 }
          | none => none
      | none => some { steps := 0, node := none }

/-- `DelegationNode.getChildren`: first re-query the own record from the
ledger and, when found, replace the cached `childrenIdentifiers` with the
freshly reported ones; then resolve each child id to its full record.
Returns the refreshed node together with the resolved children.
Modelled from the spec for the resolution step: the chain-side
`getChildren` helper (DelegationNode.chain) is not among the available
sources; per the spec it resolves each child id to its full record via the
ledger in the reported order (ids the ledger does not know resolve to
nothing and are dropped). -/
def DelegationNode.getChildren (L : Ledger) (n : DelegationNode) :
    DelegationNode × List DelegationNode :=
  let refreshed : DelegationNode :=
    match L.nodes n.id with
    | some fresh => { n with childrenIdentifiers := fresh.childrenIdentifiers }
    | none => n
  (refreshed, refreshed.childrenIdentifiers.filterMap L.nodes)

/-- The JavaScript `Array.reduce` with addition and no initial value: fails
on an empty list, otherwise folds the tail onto the head. -/
def reduceAdd : List Nat → Option Nat
  | [] => none
  | c :: cs => some (cs.foldl (fun previous current => previous + current) c)

/-- Pointwise application of a per-child count over a list of children,
collecting the results (the `Promise.all` of the mapped recursive calls);
fails when any child count fails. -/
def collectCounts (f : DelegationNode → Option Nat) :
    List DelegationNode → Option (List Nat)
  | [] => some []
  | c :: cs =>
    match f c, collectCounts f cs with
    | some x, some xs => some (x :: xs)
    | _, _ => none

/-- `DelegationNode.subtreeNodeCount`: refresh and fetch the children; with
no children return 0, otherwise recursively count each child subtree and
return the number of children plus the reduced sum of those counts.
`fuel` bounds the recursion depth of the model. -/
def DelegationNode.subtreeNodeCount (L : Ledger) :
    Nat → DelegationNode → Option Nat
  | 0, _ => none
  | fuel + 1, n =>
    let children := (DelegationNode.getChildren L n).2
    if children.length = 0 then
      some 0
    else
      match collectCounts
          (fun child => DelegationNode.subtreeNodeCount L fuel child) children with
      | some counts =>
          match reduceAdd counts with
          | some s => some (children.length + s)
          | none => none
      | none => none

/-- `DelegationNode.getHierarchyDetails`: return the memoized
`hierarchyDetails` when present; otherwise query the ledger for the
hierarchy id, fail with `HierarchyQueryFailed` when the ledger reports
none, and otherwise memoize and return the result.  The second component
counts the ledger queries the call issued; the returned node carries the
(possibly updated) memo. -/
def DelegationNode.getHierarchyDetails (L : Ledger) (n : DelegationNode) :
    Except SDKError (HierarchyDetails × DelegationNode) × Nat :=
  match n.hierarchyDetails with
  | some d => (Except.ok (d, n), 0)
  | none =>
    match L.hierarchies n.hierarchyId with
    | none => (Except.error (SDKError.hierarchyQueryFailed n.hierarchyId), 1)
    | some d =>
        (Except.ok (d, { n with hierarchyDetails := some d }), 1)

/-- The byte-level collaborators of `generateHash`: `Crypto.coToUInt8`
(string to bytes), `DelegationNodeUtils.permissionsAsBitset` (the canonical
byte encoding of the permission set; its module is not among the available
sources, so it stays an abstract function of the permissions), `Crypto.hash`
with bit length 256, and `Crypto.u8aToHex`.  Bytes are modelled as lists of
naturals. -/
structure HashParams where
  coToUInt8 : String → List Nat
  permissionsAsBitset : List Nat → List Nat
  hash256 : List Nat → List Nat
  u8aToHex : List Nat → String

/-- `DelegationNode.generateHash`: collect `id`, `hierarchyId` and, only
when present, `parentId`; encode each to bytes; append the permission
bitset encoding; concatenate everything; hash with 256 bits and hex-encode
the digest. -/
def DelegationNode.generateHash (P : HashParams) (n : DelegationNode) : String :=
  let propsToHash : List String :=
    [n.id, n.hierarchyId] ++ (match n.parentId with | some p => [p] | none => [])
  let uint8Props : List (List Nat) := propsToHash.map P.coToUInt8
  let allProps : List (List Nat) := uint8Props ++ [P.permissionsAsBitset n.permissions]
  P.u8aToHex (P.hash256 allProps.flatten)

/-- The submission collaborator, modelled by the request value an operation
emits: the chain-side builders `storeAsRoot`, `storeAsDelegation`, `revoke`,
`remove` and `reclaimDeposit` of DelegationNode.chain, each applied to the
arguments the engine passes.  Delegate signatures are modelled as opaque
strings. -/
inductive ChainCall where
  | storeRootCall (node : DelegationNode)
  | storeDelegationCall (node : DelegationNode) (signature : String)
  | revokeCall (targetId : String) (maxDepth : Nat) (maxRevocations : Nat)
  | removeCall (targetId : String) (maxRemovals : Nat)
  | reclaimCall (targetId : String) (maxRemovals : Nat)
  deriving DecidableEq, Repr

/-- `DelegationNode.store`: a root node is stored with `storeAsRoot`
regardless of the signature argument; a non-root node requires the delegate
signature (its absence fails with `SignatureMissing`) and is stored with
`storeAsDelegation` carrying that signature. -/
def DelegationNode.store (n : DelegationNode) (signature : Option String) :
    Except SDKError ChainCall :=
  if n.isRoot then
    Except.ok (ChainCall.storeRootCall n)
  else
    match signature with
    | none => Except.error SDKError.signatureMissing
    | some s => Except.ok (ChainCall.storeDelegationCall n s)

/-- `DelegationNode.revoke`: find the ancestor owned by the given DID; when
no node comes back, fail with `Unauthorized` and emit nothing; otherwise
compute the subtree node count and emit the revoke request with the own id,
the steps as `maxDepth` and the count as `maxRevocations`.  `none` models a
walk that exceeds the fuel. -/
def DelegationNode.revoke (L : Ledger) (fuel : Nat) (n : DelegationNode)
    (did : String) : Option (Except SDKError ChainCall) :=
  match DelegationNode.findAncestorOwnedBy L fuel n did with
  | none => none
  | some result =>
    match result.node with
    | none => some (Except.error SDKError.unauthorized)
    | some _ =>
      match DelegationNode.subtreeNodeCount L fuel n with
      | none => none
      | some childCount =>
          some (Except.ok (ChainCall.revokeCall n.id result.steps childCount))

/-- `DelegationNode.remove`: compute the subtree node count and emit the
remove request with the own id and the count as `maxRemovals`; no authority
check is performed client-side. -/
def DelegationNode.remove (L : Ledger) (fuel : Nat) (n : DelegationNode) :
    Option ChainCall :=
  match DelegationNode.subtreeNodeCount L fuel n with
  | none => none
  | some childCount => some (ChainCall.removeCall n.id childCount)

/-- `DelegationNode.reclaimDeposit`: compute the subtree node count and emit
the reclaim-deposit request with the own id and the count as `maxRemovals`;
no authority check is performed client-side. -/
def DelegationNode.reclaimDeposit (L : Ledger) (fuel : Nat) (n : DelegationNode) :
    Option ChainCall :=
  match DelegationNode.subtreeNodeCount L fuel n with
  | none => none
  | some childCount => some (ChainCall.reclaimCall n.id childCount)

/-- Successive parent links: `chainUp L n [p1, ..., pk]` holds when `p1` is
the ledger-resolved parent of `n`, `p2` the parent of `p1`, and so on. -/
def chainUp (L : Ledger) : DelegationNode → List DelegationNode → Bool
  | _, [] => true
  | n, p :: rest => decide (DelegationNode.getParent L n = some p) && chainUp L p rest

/-- The last node of the walk `n :: ps`: the topmost reachable ancestor when
`ps` is the full parent chain above `n`. -/
def lastOf (n : DelegationNode) (ps : List DelegationNode) : DelegationNode :=
  ps.getLast?.getD n

/- Concrete fixtures mirroring the scenario of the spec: root `wRoot`
(account didA), child `wC1` (account didB, parent the root), grandchild
`wC2` (account didD, parent wC1), and the ledger resolving their ids. -/

/-- Fixture: hierarchy root, account didA. -/
def wRoot : DelegationNode :=
  { id := "root", hierarchyId := "root", parentId := none
    childrenIdentifiers := ["c1"], account := "didA", permissions := [1, 2]
    hierarchyDetails := none, revoked := false }

/-- Fixture: middle delegation node, account didB, parent the root. -/
def wC1 : DelegationNode :=
  { id := "c1", hierarchyId := "root", parentId := some "root"
    childrenIdentifiers := ["c2"], account := "didB", permissions := [1]
    hierarchyDetails := none, revoked := false }

/-- Fixture: leaf delegation node, account didD, parent wC1. -/
def wC2 : DelegationNode :=
  { id := "c2", hierarchyId := "root", parentId := some "c1"
    childrenIdentifiers := [], account := "didD", permissions := [1]
    hierarchyDetails := none, revoked := false }

/-- Fixture: the ledger resolving the three nodes and the hierarchy of the
root. -/
def wLedger : Ledger :=
  { nodes := fun i =>
      if i = "root" then some wRoot
      else if i = "c1" then some wC1
      else if i = "c2" then some wC2
      else none
    hierarchies := fun i =>
      if i = "root" then some { id := "root", cTypeHash := "ctype" } else none }

/-- Fixture: concrete hash collaborators to instantiate the abstract
`HashParams` when evaluating (character codes for the byte encoding, one
little-endian bitset word for the permissions, the identity for the digest,
decimal rendering for the hex encoding). -/
def wHashParams : HashParams :=
  { coToUInt8 := fun s => s.toList.map Char.toNat
    permissionsAsBitset := fun perms =>
      [perms.foldl (fun p q => p + q) 0 % 256, 0, 0, 0]
    hash256 := fun bytes => bytes
    u8aToHex := fun bytes => toString bytes }

/-- Fixture: the leaf node with every field outside the hashed quadruple
(id, hierarchyId, parentId, permissions) changed. -/
def wC2variant : DelegationNode :=
  { wC2 with
      account := "didX"
      childrenIdentifiers := ["zzz"]
      hierarchyDetails := some { id := "root", cTypeHash := "other" }
      revoked := true }

/-- C1: `revoke(node, asDid)` first calls `findAncestorOwnedBy(node, asDid)`;
when the returned node is absent it fails with `Unauthorized` and emits no
request, and otherwise it emits a revoke cascade request whose `targetId` is
`node.id`, whose `maxDepth` is the returned steps, and whose
`maxRevocations` is `subtreeNodeCount(node)` computed after the authority
check. -/
theorem revoke_spec (L : Ledger) (fuel : Nat) (n : DelegationNode) (did : String)
    (result : FindResult)
    (hfind : DelegationNode.findAncestorOwnedBy L fuel n did = some result) :
    (result.node = none →
      DelegationNode.revoke L fuel n did = some (Except.error SDKError.unauthorized)) ∧
    (∀ a childCount, result.node = some a →
      DelegationNode.subtreeNodeCount L fuel n = some childCount →
      DelegationNode.revoke L fuel n did =
        some (Except.ok (ChainCall.revokeCall n.id result.steps childCount))) := by
  constructor
  · intro hnode
    simp [DelegationNode.revoke, hfind, hnode]
  · intro a childCount hnode hcount
    simp [DelegationNode.revoke, hfind, hnode, hcount]

/-- Witness for C1: on the concrete three-node ledger, revoking the leaf as
didB (owner one hop up) emits the request with maxDepth 1 and
maxRevocations 0, and revoking as an unrelated DID fails Unauthorized. -/
theorem revoke_spec_witness :
    DelegationNode.revoke wLedger 5 wC2 "didB" =
      some (Except.ok (ChainCall.revokeCall "c2" 1 0)) ∧
    DelegationNode.revoke wLedger 5 wC2 "didZ" =
      some (Except.error SDKError.unauthorized) := by
  constructor
  · exact (revoke_spec wLedger 5 wC2 "didB" { steps := 1, node := some wC1 }
      (by decide)).2 wC1 0 rfl (by decide)
  · exact (revoke_spec wLedger 5 wC2 "didZ" { steps := 2, node := none }
      (by decide)).1 rfl

/-- C2: `store(node, signature?)` emits a root-creation request when the
node is a root (`id == hierarchyId` and no `parentId`), ignoring any
signature; for a non-root node it fails with `SignatureMissing` when no
signature is given, and with a signature it emits a delegation store
request carrying that exact signature. -/
theorem store_spec (n : DelegationNode) :
    (n.id = n.hierarchyId → n.parentId = none →
      ∀ signature, DelegationNode.store n signature =
        Except.ok (ChainCall.storeRootCall n)) ∧
    (¬(n.id = n.hierarchyId ∧ n.parentId = none) →
      DelegationNode.store n none = Except.error SDKError.signatureMissing ∧
      ∀ s, DelegationNode.store n (some s) =
        Except.ok (ChainCall.storeDelegationCall n s)) := by
  constructor
  · intro hid hpar signature
    simp [DelegationNode.store, DelegationNode.isRoot, hid, hpar]
  · intro hnotroot
    have hroot : n.isRoot = false := by
      rcases Classical.em (n.id = n.hierarchyId) with hid | hid
      · have hpar : n.parentId ≠ none := fun hpar => hnotroot ⟨hid, hpar⟩
        rcases Option.ne_none_iff_exists'.mp hpar with ⟨v, hv⟩
        simp [DelegationNode.isRoot, hid, hv]
      · simp [DelegationNode.isRoot, hid]
    constructor
    · simp [DelegationNode.store, hroot]
    · intro s
      simp [DelegationNode.store, hroot]

/-- Witness for C2: the concrete root node stores as a root request with or
without a signature, and the concrete non-root leaf fails without a
signature and stores the given signature when present. -/
theorem store_spec_witness :
    DelegationNode.store wRoot none = Except.ok (ChainCall.storeRootCall wRoot) ∧
    DelegationNode.store wC2 none = Except.error SDKError.signatureMissing ∧
    DelegationNode.store wC2 (some "sig") =
      Except.ok (ChainCall.storeDelegationCall wC2 "sig") := by
  refine ⟨(store_spec wRoot).1 rfl rfl none, ?_, ?_⟩
  · exact ((store_spec wC2).2 (by decide)).1
  · exact ((store_spec wC2).2 (by decide)).2 "sig"

/-- Folding addition from an arbitrary start accumulates the list sum. -/
theorem foldl_add_eq (a : Nat) (l : List Nat) :
    List.foldl (fun previous current => previous + current) a l = a + l.sum := by
  induction l generalizing a with
  | nil => simp
  | cons x xs ih =>
    simp only [List.foldl_cons, List.sum_cons]
    rw [ih]
    omega

/-- The JavaScript reduce on a nonempty list of naturals is the sum. -/
theorem reduceAdd_eq_sum (c : Nat) (cs : List Nat) :
    reduceAdd (c :: cs) = some ((c :: cs).sum) := by
  simp [reduceAdd, foldl_add_eq]

/-- When every child count succeeds pointwise, collecting them succeeds
with exactly that list of counts. -/
theorem collectCounts_eq_of_forall₂ (f : DelegationNode → Option Nat)
    (children : List DelegationNode) (counts : List Nat)
    (h : List.Forall₂ (fun child c => f child = some c) children counts) :
    collectCounts f children = some counts := by
  induction h with
  | nil => rfl
  | cons hfc _ ih => simp [collectCounts, hfc, ih]

/-- C3: `subtreeNodeCount(node)` returns 0 when the refreshed children list
is empty, and otherwise returns the number of children plus the sum of the
recursive subtree counts of the children, counting every descendant and
excluding the node itself. -/
theorem subtreeNodeCount_spec (L : Ledger) (fuel : Nat) (n : DelegationNode) :
    ((DelegationNode.getChildren L n).2 = [] →
      DelegationNode.subtreeNodeCount L (fuel + 1) n = some 0) ∧
    (∀ counts, List.Forall₂
        (fun child c => DelegationNode.subtreeNodeCount L fuel child = some c)
        (DelegationNode.getChildren L n).2 counts →
      (DelegationNode.getChildren L n).2 ≠ [] →
      DelegationNode.subtreeNodeCount L (fuel + 1) n =
        some ((DelegationNode.getChildren L n).2.length + counts.sum)) := by
  constructor
  · intro hnil
    simp [DelegationNode.subtreeNodeCount, hnil]
  · intro counts hall hne
    have hcoll : collectCounts
        (fun child => DelegationNode.subtreeNodeCount L fuel child)
        (DelegationNode.getChildren L n).2 = some counts :=
      collectCounts_eq_of_forall₂ _ _ _ hall
    have hlen : (DelegationNode.getChildren L n).2.length = counts.length :=
      List.Forall₂.length_eq hall
    rcases hc : counts with _ | ⟨c, cs⟩
    · rw [hc] at hlen
      exact absurd (List.length_eq_zero.mp hlen) hne
    rw [hc] at hcoll hlen
    have hlz : ¬((DelegationNode.getChildren L n).2.length = 0) := by
      rw [hlen]; simp
    simp [DelegationNode.subtreeNodeCount, hlz, hcoll, reduceAdd_eq_sum]

/-- Witness for C3: on the concrete ledger, the leaf has subtree count 0
and the root (one child wC1, one grandchild wC2) has subtree count 2. -/
theorem subtreeNodeCount_spec_witness :
    DelegationNode.subtreeNodeCount wLedger 5 wRoot = some 2 ∧
    DelegationNode.subtreeNodeCount wLedger 5 wC2 = some 0 := by
  have hch : (DelegationNode.getChildren wLedger wRoot).2 = [wC1] := by decide
  constructor
  · have h := (subtreeNodeCount_spec wLedger 4 wRoot).2 [1]
      (by rw [hch]; exact List.Forall₂.cons (by decide) List.Forall₂.nil)
      (by rw [hch]; simp)
    rw [hch] at h
    simpa using h
  · exact (subtreeNodeCount_spec wLedger 4 wC2).1 (by decide)

/-- C4: `findAncestorOwnedBy(node, did)` returns zero steps and the node
itself when the node account is the queried DID, and on an ancestor chain
whose first DID-owned member sits exactly k parent hops above the node it
returns k steps together with that ancestor. -/
theorem findAncestorOwnedBy_spec (L : Ledger) (did : String) :
    (∀ fuel n, n.account = did →
      DelegationNode.findAncestorOwnedBy L (fuel + 1) n did =
        some { steps := 0, node := some n }) ∧
    (∀ ps a, ∀ n fuel, chainUp L n (ps ++ [a]) = true →
      (∀ m ∈ n :: ps, m.account ≠ did) → a.account = did →
      ps.length + 1 < fuel →
      DelegationNode.findAncestorOwnedBy L fuel n did =
        some { steps := ps.length + 1, node := some a }) := by
  constructor
  · intro fuel n h
    simp [DelegationNode.findAncestorOwnedBy, h]
  · intro ps a
    induction ps with
    | nil =>
      intro n fuel hchain hacc ha hfuel
      obtain ⟨f, rfl⟩ : ∃ f, fuel = f + 2 := ⟨fuel - 2, by omega⟩
      have hpar : DelegationNode.getParent L n = some a := by
        simpa [chainUp] using hchain
      have hn : ¬(n.account = did) := hacc n (by simp)
      simp [DelegationNode.findAncestorOwnedBy, hn, hpar, ha]
    | cons p ps ih =>
      intro n fuel hchain hacc ha hfuel
      obtain ⟨f, rfl⟩ : ∃ f, fuel = f + 1 := ⟨fuel - 1, by omega⟩
      have hpar : DelegationNode.getParent L n = some p := by
        have := hchain
        simp only [List.cons_append, chainUp, Bool.and_eq_true, decide_eq_true_eq] at this
        exact this.1
      have hrest : chainUp L p (ps ++ [a]) = true := by
        have := hchain
        simp only [List.cons_append, chainUp, Bool.and_eq_true, decide_eq_true_eq] at this
        exact this.2
      have hn : ¬(n.account = did) := hacc n (by simp)
      have hacc' : ∀ m ∈ p :: ps, m.account ≠ did := by
        intro m hm
        exact hacc m (by simp at hm ⊢; tauto)
      have hih := ih p f hrest hacc' ha (by simp at hfuel; omega)
      simp [DelegationNode.findAncestorOwnedBy, hn, hpar, hih]

/-- Witness for C4: on the concrete ledger the leaf finds itself at zero
steps for its own DID, and finds the root two hops up for didA. -/
theorem findAncestorOwnedBy_spec_witness :
    DelegationNode.findAncestorOwnedBy wLedger 3 wC2 "didD" =
      some { steps := 0, node := some wC2 } ∧
    DelegationNode.findAncestorOwnedBy wLedger 4 wC2 "didA" =
      some { steps := 2, node := some wRoot } := by
  constructor
  · exact (findAncestorOwnedBy_spec wLedger "didD").1 2 wC2 rfl
  · exact (findAncestorOwnedBy_spec wLedger "didA").2 [wC1] wRoot wC2 4
      (by decide) (by decide) rfl (by decide)

/-- The last element of a walk extended below: dropping the first hop keeps
the topmost node. -/
theorem lastOf_cons (n p : DelegationNode) (ps : List DelegationNode) :
    lastOf n (p :: ps) = lastOf p ps := by
  cases ps with
  | nil => simp [lastOf]
  | cons h t =>
    obtain ⟨x, hx⟩ := Option.isSome_iff_exists.mp
      (List.getLast?_isSome.mpr (List.cons_ne_nil h t))
    simp [lastOf, List.getLast?_cons_cons, hx]

/-- C10: when no ancestor (nor the node itself) is owned by the DID, the
returned node is absent but the returned steps equals the number of parent
hops traversed up to the topmost reachable ancestor, because the per-level
increment is applied to the failing result as well. -/
theorem findAncestorOwnedBy_notFound_steps (L : Ledger) (did : String)
    (ps : List DelegationNode) : ∀ n fuel, chainUp L n ps = true →
    (∀ m ∈ n :: ps, m.account ≠ did) →
    DelegationNode.getParent L (lastOf n ps) = none →
    ps.length < fuel →
    DelegationNode.findAncestorOwnedBy L fuel n did =
      some { steps := ps.length, node := none } := by
  induction ps with
  | nil =>
    intro n fuel _ hacc hlast hfuel
    obtain ⟨f, rfl⟩ : ∃ f, fuel = f + 1 := ⟨fuel - 1, by omega⟩
    have hn : ¬(n.account = did) := hacc n (by simp)
    have hl : DelegationNode.getParent L n = none := by simpa [lastOf] using hlast
    simp [DelegationNode.findAncestorOwnedBy, hn, hl]
  | cons p ps ih =>
    intro n fuel hchain hacc hlast hfuel
    obtain ⟨f, rfl⟩ : ∃ f, fuel = f + 1 := ⟨fuel - 1, by omega⟩
    have hpar : DelegationNode.getParent L n = some p := by
      have := hchain
      simp only [chainUp, Bool.and_eq_true, decide_eq_true_eq] at this
      exact this.1
    have hrest : chainUp L p ps = true := by
      have := hchain
      simp only [chainUp, Bool.and_eq_true, decide_eq_true_eq] at this
      exact this.2
    have hn : ¬(n.account = did) := hacc n (by simp)
    have hacc' : ∀ m ∈ p :: ps, m.account ≠ did := by
      intro m hm
      exact hacc m (by simp at hm ⊢; tauto)
    have hlast' : DelegationNode.getParent L (lastOf p ps) = none := by
      rwa [lastOf_cons] at hlast
    have hih := ih p f hrest hacc' hlast' (by simp at hfuel; omega)
    simp [DelegationNode.findAncestorOwnedBy, hn, hpar, hih]

/-- Witness for C10: on the concrete ledger, looking for an unknown DID
from the leaf walks the two hops to the root and returns two steps with no
node. -/
theorem findAncestorOwnedBy_notFound_witness :
    DelegationNode.findAncestorOwnedBy wLedger 5 wC2 "didZ" =
      some { steps := 2, node := none } :=
  findAncestorOwnedBy_notFound_steps wLedger "didZ" [wC1, wRoot] wC2 5
    (by decide) (by decide) (by decide) (by decide)

/-- C5: `generateHash(node)` concatenates, in fixed order, the byte
encodings of id, hierarchyId, parentId (included only when present) and the
permission bitset, applies the 256-bit hash and hex-encodes the digest; in
particular two nodes that agree on these four fields and differ only
elsewhere (account, children cache, revoked, hierarchy memo) produce the
same hash. -/
theorem generateHash_spec (P : HashParams) (n m : DelegationNode)
    (hid : n.id = m.id) (hh : n.hierarchyId = m.hierarchyId)
    (hp : n.parentId = m.parentId) (hperm : n.permissions = m.permissions) :
    DelegationNode.generateHash P n =
      P.u8aToHex (P.hash256 (P.coToUInt8 n.id ++ P.coToUInt8 n.hierarchyId ++
        (match n.parentId with
         | some p => P.coToUInt8 p
         | none => []) ++ P.permissionsAsBitset n.permissions)) ∧
    DelegationNode.generateHash P n = DelegationNode.generateHash P m := by
  have hstruct : ∀ k : DelegationNode, DelegationNode.generateHash P k =
      P.u8aToHex (P.hash256 (P.coToUInt8 k.id ++ P.coToUInt8 k.hierarchyId ++
        (match k.parentId with
         | some p => P.coToUInt8 p
         | none => []) ++ P.permissionsAsBitset k.permissions)) := by
    intro k
    cases hk : k.parentId <;> simp [DelegationNode.generateHash, hk]
  refine ⟨hstruct n, ?_⟩
  rw [hstruct n, hstruct m, hid, hh, hp, hperm]

/-- Witness for C5: the digest input of the leaf is the concatenation of
its four encoded identity fields, and the variant node differing only
outside those fields hashes identically. -/
theorem generateHash_spec_witness :
    DelegationNode.generateHash wHashParams wC2 =
      wHashParams.u8aToHex (wHashParams.hash256 (wHashParams.coToUInt8 wC2.id ++
        wHashParams.coToUInt8 wC2.hierarchyId ++ wHashParams.coToUInt8 "c1" ++
        wHashParams.permissionsAsBitset wC2.permissions)) ∧
    DelegationNode.generateHash wHashParams wC2 =
      DelegationNode.generateHash wHashParams wC2variant := by
  have h := generateHash_spec wHashParams wC2 wC2variant rfl rfl rfl rfl
  exact ⟨h.1, h.2⟩

/-- C6: `getHierarchyDetails(node)` returns the memo and issues no ledger
query when the memo is present (which holds for every node built by
`newRoot`); when absent it issues exactly one query for the hierarchy id,
fails with `HierarchyQueryFailed` when the ledger reports none, and
otherwise memoizes the result and returns it, so that a second call issues
no further query. -/
theorem getHierarchyDetails_spec (L : Ledger) (n : DelegationNode) :
    (∀ d, n.hierarchyDetails = some d →
      DelegationNode.getHierarchyDetails L n = (Except.ok (d, n), 0)) ∧
    (n.hierarchyDetails = none → L.hierarchies n.hierarchyId = none →
      DelegationNode.getHierarchyDetails L n =
        (Except.error (SDKError.hierarchyQueryFailed n.hierarchyId), 1)) ∧
    (∀ d, n.hierarchyDetails = none → L.hierarchies n.hierarchyId = some d →
      DelegationNode.getHierarchyDetails L n =
        (Except.ok (d, { n with hierarchyDetails := some d }), 1) ∧
      DelegationNode.getHierarchyDetails L { n with hierarchyDetails := some d } =
        (Except.ok (d, { n with hierarchyDetails := some d }), 0)) ∧
    (∀ freshId account permissions cTypeHash,
      ∃ root, DelegationNode.newRoot freshId account permissions cTypeHash =
          Except.ok root ∧
        root.hierarchyDetails = some { id := freshId, cTypeHash := cTypeHash }) := by
  refine ⟨?_, ?_, ?_, ?_⟩
  · intro d hd
    simp [DelegationNode.getHierarchyDetails, hd]
  · intro hcache hled
    simp [DelegationNode.getHierarchyDetails, hcache, hled]
  · intro d hcache hled
    constructor
    · simp [DelegationNode.getHierarchyDetails, hcache, hled]
    · simp [DelegationNode.getHierarchyDetails]
  · intro freshId account permissions cTypeHash
    refine ⟨DelegationNode.mk freshId freshId none [] account permissions
      (some (HierarchyDetails.mk freshId cTypeHash)) false, ?_, rfl⟩
    simp [DelegationNode.newRoot, DelegationNode.ofInput, errorCheck]

/-- Witness for C6: on the concrete ledger the memo-free middle node issues
one query, memoizes and returns the hierarchy details; the memoized node
answers with no query; a node pointing at a missing hierarchy fails. -/
theorem getHierarchyDetails_spec_witness :
    DelegationNode.getHierarchyDetails wLedger wC1 =
      (Except.ok ({ id := "root", cTypeHash := "ctype" },
        { wC1 with hierarchyDetails := some { id := "root", cTypeHash := "ctype" } }), 1) ∧
    DelegationNode.getHierarchyDetails wLedger
        { wC1 with hierarchyDetails := some { id := "root", cTypeHash := "ctype" } } =
      (Except.ok ({ id := "root", cTypeHash := "ctype" },
        { wC1 with hierarchyDetails := some { id := "root", cTypeHash := "ctype" } }), 0) ∧
    DelegationNode.getHierarchyDetails wLedger { wC1 with hierarchyId := "gone" } =
      (Except.error (SDKError.hierarchyQueryFailed "gone"), 1) := by
  have h3 := (getHierarchyDetails_spec wLedger wC1).2.2.1
    { id := "root", cTypeHash := "ctype" } rfl (by decide)
  refine ⟨h3.1, h3.2, ?_⟩
  exact (getHierarchyDetails_spec wLedger
    { wC1 with hierarchyId := "gone" }).2.1 rfl (by decide)

/-- C7: `getChildren(node)` re-queries the own record from the ledger and
replaces the cached children ids with the freshly reported ones before
resolving each child id to its full record, so the returned children follow
the ledger-reported list and order and do not depend on the stale cache. -/
theorem getChildren_spec (L : Ledger) (n fresh : DelegationNode)
    (h : L.nodes n.id = some fresh) :
    (DelegationNode.getChildren L n).1.childrenIdentifiers =
      fresh.childrenIdentifiers ∧
    (DelegationNode.getChildren L n).2 =
      fresh.childrenIdentifiers.filterMap L.nodes ∧
    (∀ stale, (DelegationNode.getChildren L
        { n with childrenIdentifiers := stale }).2 =
      (DelegationNode.getChildren L n).2) := by
  refine ⟨?_, ?_, ?_⟩ <;> simp [DelegationNode.getChildren, h]

/-- Witness for C7: the concrete root resolves exactly its ledger-reported
child, and poisoning the cached children ids does not change the result. -/
theorem getChildren_spec_witness :
    (DelegationNode.getChildren wLedger wRoot).2 = [wC1] ∧
    (DelegationNode.getChildren wLedger
        { wRoot with childrenIdentifiers := ["c2", "zzz"] }).2 =
      (DelegationNode.getChildren wLedger wRoot).2 := by
  have h := getChildren_spec wLedger wRoot wRoot (by decide)
  refine ⟨?_, h.2.2 ["c2", "zzz"]⟩
  rw [h.2.1]
  decide

/-- C8: construction rejects structurally inconsistent nodes with
`InvalidNode`: a non-root input (id differing from hierarchyId) with no
parentId fails, and so does an input claiming to be root (id equal to
hierarchyId) that carries a parentId. -/
theorem construction_invalidNode_spec (input : IDelegationNode) :
    (input.id ≠ input.hierarchyId → input.parentId = none →
      DelegationNode.ofInput input = Except.error SDKError.invalidNode) ∧
    (input.id = input.hierarchyId → input.parentId ≠ none →
      DelegationNode.ofInput input = Except.error SDKError.invalidNode) := by
  constructor
  · intro hne hpar
    simp [DelegationNode.ofInput, errorCheck, hne, hpar]
  · intro heq hpar
    rcases Option.ne_none_iff_exists'.mp hpar with ⟨v, hv⟩
    simp [DelegationNode.ofInput, errorCheck, heq, hv]

/-- Witness for C8: a concrete non-root input with no parent id and a
concrete root-claiming input with a parent id both fail with
`InvalidNode`. -/
theorem construction_invalidNode_witness :
    DelegationNode.ofInput
      { id := "n1", hierarchyId := "h1", parentId := none, childrenIds := [],
        account := "didA", permissions := [1], revoked := false } =
      Except.error SDKError.invalidNode ∧
    DelegationNode.ofInput
      { id := "h1", hierarchyId := "h1", parentId := some "p1", childrenIds := [],
        account := "didA", permissions := [1], revoked := false } =
      Except.error SDKError.invalidNode := by
  constructor
  · exact (construction_invalidNode_spec _).1 (by decide) rfl
  · exact (construction_invalidNode_spec _).2 rfl (by decide)

/-- C9: `remove(node)` and `reclaimDeposit(node)` perform no client-side
authority proof: each computes the subtree node count and emits a request
with the own id as target and that count as the removal bound, the two
operations computing the bound identically. -/
theorem remove_reclaim_spec (L : Ledger) (fuel : Nat) (n : DelegationNode)
    (childCount : Nat)
    (h : DelegationNode.subtreeNodeCount L fuel n = some childCount) :
    DelegationNode.remove L fuel n = some (ChainCall.removeCall n.id childCount) ∧
    DelegationNode.reclaimDeposit L fuel n =
      some (ChainCall.reclaimCall n.id childCount) := by
  constructor <;> simp [DelegationNode.remove, DelegationNode.reclaimDeposit, h]

/-- Witness for C9: on the concrete ledger the root (subtree of two nodes)
emits remove and reclaim requests both bounded by 2. -/
theorem remove_reclaim_witness :
    DelegationNode.remove wLedger 5 wRoot = some (ChainCall.removeCall "root" 2) ∧
    DelegationNode.reclaimDeposit wLedger 5 wRoot =
      some (ChainCall.reclaimCall "root" 2) :=
  remove_reclaim_spec wLedger 5 wRoot 2 (by decide)

end KiltDelegation
